import Mathlib

/-!
Verification of the whitemarket ingestion pipeline (src/whitemarket_fetcher.py).

Strings are embedded as `List Char`; the Python builtins used by the source
(`str.strip`, `str.replace`, `str.endswith`, substring containment, `float`)
are modelled character by character.  JSON values are an inductive `Json`;
raw feed records are association lists of key/value pairs, exactly the dicts
the source manipulates.  Machine floats are modelled as rationals: every
price literal exercised here (250, 1.5, divisions by 100) is exactly
representable in binary floating point, so the rational model agrees with
the Python float semantics on all inputs appearing in theorems.
-/

namespace Whitemarket

/-- Python whitespace class used by `str.strip` (space, tab, LF, CR,
vertical tab, form feed). -/
def wsB (c : Char) : Bool :=
  c == ' ' || c == '\t' || c == '\n' || c == '\r' || c == '\x0b' || c == '\x0c'

/-- Python `str.strip()`: drop whitespace from both ends. -/
def pyStrip (s : List Char) : List Char :=
  ((s.dropWhile wsB).reverse.dropWhile wsB).reverse

/-- Fuel-driven core of Python `str.replace`: scan left to right, replace
each non-overlapping occurrence of `pat` by `rep`.  Fuel `s.length`
always suffices, so `pyReplace` below agrees with the Python builtin for
every non-empty pattern (the source only replaces non-empty patterns). -/
def pyReplaceAux (pat rep : List Char) : Nat → List Char → List Char
  | 0, s => s
  | fuel + 1, s =>
    if pat ≠ [] ∧ pat <+: s then rep ++ pyReplaceAux pat rep fuel (s.drop pat.length)
    else
      match s with
      | [] => []
      | c :: rest => c :: pyReplaceAux pat rep fuel rest

/-- Python `s.replace(pat, rep)` for non-empty `pat`. -/
def pyReplace (pat rep s : List Char) : List Char := pyReplaceAux pat rep s.length s

/-- Python substring containment `pat in s`. -/
def subSearch (pat : List Char) : List Char → Bool
  | [] => pat.isEmpty
  | c :: rest => pat.isPrefixOf (c :: rest) || subSearch pat rest

/-- Decimal digit test, as in Python float literals. -/
def isDigitCh (c : Char) : Bool := '0' ≤ c && c ≤ '9'

/-- Numeric value of a list of decimal digit characters. -/
def digitsToNat (ds : List Char) : Nat := ds.foldl (fun a c => a * 10 + (c.toNat - 48)) 0

/-- Unsigned part of Python `float(...)` string parsing: digits with an
optional fractional part (`"250"`, `"1.5"`, `"2."`, `".5"`).  Exponents,
`inf`/`nan` and underscore separators are accepted by the Python builtin
but never produced by the feed fields the claims exercise, so they parse
to `none` here. -/
def pyFloatCore (s : List Char) : Option ℚ :=
  let ip := s.takeWhile isDigitCh
  let rest := s.dropWhile isDigitCh
  match rest with
  | [] => if ip.isEmpty then none else some (digitsToNat ip : ℚ)
  | '.' :: rest2 =>
    let fp := rest2.takeWhile isDigitCh
    let rest3 := rest2.dropWhile isDigitCh
    if rest3 = [] ∧ (ip ≠ [] ∨ fp ≠ []) then
      some ((digitsToNat ip : ℚ) + (digitsToNat fp : ℚ) / (10 ^ fp.length : ℚ))
    else none
  | _ => none

/-- Python `float(txt)` on a string: strip whitespace, optional sign,
then an unsigned decimal literal; `none` models a raised `ValueError`. -/
def pyFloat (s0 : List Char) : Option ℚ :=
  match pyStrip s0 with
  | '+' :: s => pyFloatCore s
  | '-' :: s => (pyFloatCore s).map Neg.neg
  | s => pyFloatCore s

/-- CONDITION_NAMES, lines 26-32 of the source: the five wear labels in
the order the source scans them. -/
def CONDITION_NAMES : List (List Char) :=
  ["Factory New".data, "Minimal Wear".data, "Field-Tested".data,
   "Well-Worn".data, "Battle-Scarred".data]

/-- The trailing parenthetical the source tests with
`s.endswith(f"(\x7bcond\x7d)")`. -/
def parensOf (c : List Char) : List Char := '(' :: (c ++ [')'])

/-- Result of `parse_market_hash_name` (the source returns the same four
components as a tuple, unpacked by name at the call site). -/
structure ParsedName where
  name_base : List Char
  stattrak : Bool
  souvenir : Bool
  condition : Option (List Char)
  deriving DecidableEq

/-- Line 42-46: first wear label whose parenthetical form is a suffix of
the name. -/
def findCondition (s : List Char) : Option (List Char) :=
  CONDITION_NAMES.find? (fun c => decide (parensOf c <:+ s))

/-- Line 39: `"StatTrak" in s or "StatTrak™" in s`. -/
def hasStatTrak (s : List Char) : Bool :=
  subSearch "StatTrak".data s || subSearch "StatTrak™".data s

/-- Line 40: `"Souvenir" in s`. -/
def hasSouvenir (s : List Char) : Bool := subSearch "Souvenir".data s

/-- Line 47: strip the marker tokens and surrounding whitespace from the
working string to obtain the base name. -/
def stripMarkers (s : List Char) : List Char :=
  pyStrip (pyReplace "Souvenir ".data [] (pyReplace "StatTrak ".data [] (pyReplace "StatTrak™ ".data [] s)))

/-- Lines 35-48: `parse_market_hash_name`.  The wear label (with its
parentheses, preceded by `s[:-(len(cond)+2)].strip()`) is removed before
the marker tokens are stripped, exactly as in the source. -/
def parse_market_hash_name (name : List Char) : ParsedName :=
  if name = [] then ⟨[], false, false, none⟩
  else
    match findCondition name with
    | some c =>
      ⟨stripMarkers (pyStrip (name.take (name.length - (c.length + 2)))),
       hasStatTrak name, hasSouvenir name, some c⟩
    | none => ⟨stripMarkers name, hasStatTrak name, hasSouvenir name, none⟩

/-- Line 60: `"|".join(parts)` over the empty-filtered component list. -/
def joinParts : List (List Char) → List Char
  | [] => []
  | [p] => p
  | p :: q :: ps => p ++ '|' :: joinParts (q :: ps)

/-- Lines 52-58: the five key components in source order (`name_base or ""`,
the StatTrak marker, the Souvenir marker, `condition or ""`, `phase or ""`). -/
def mkParts (nb : List Char) (st sv : Bool) (cond ph : Option (List Char)) : List (List Char) :=
  [nb, if st then "StatTrak".data else [], if sv then "Souvenir".data else [],
   cond.getD [], ph.getD []]

/-- Lines 51-60: `build_item_key` drops the empty components, joins the
rest with a pipe and strips the result. -/
def build_item_key (nb : List Char) (st sv : Bool) (cond ph : Option (List Char)) : List Char :=
  pyStrip (joinParts ((mkParts nb st sv cond ph).filter (fun p => !p.isEmpty)))

/-- A `find?` that meets a unique satisfying element returns exactly it,
wherever it sits in the list. -/
lemma find?_eq_some_of_unique {α : Type} (p : α → Bool) (l : List α) (a : α)
    (ha : a ∈ l) (hpa : p a = true) (huniq : ∀ b ∈ l, p b = true → b = a) :
    l.find? p = some a := by
  induction l with
  | nil => cases ha
  | cons x xs ih =>
    by_cases hx : p x = true
    · have hxa : x = a := huniq x (List.mem_cons_self x xs) hx
      rw [List.find?_cons_of_pos xs hx, hxa]
    · have hax : a ∈ xs := by
        rcases List.mem_cons.mp ha with h | h
        · exact absurd (h ▸ hpa) hx
        · exact h
      rw [List.find?_cons_of_neg xs (by simpa using hx)]
      exact ih hax (fun b hb hpb => huniq b (List.mem_cons_of_mem _ hb) hpb)

/-- No parenthesised wear label is a proper suffix of another: checked on
the five concrete labels. -/
lemma paren_suffix_pairs :
    ∀ l1 ∈ CONDITION_NAMES, ∀ l2 ∈ CONDITION_NAMES,
      parensOf l1 <:+ parensOf l2 → l1 = l2 := by decide

/-- At most one wear label matches as a trailing parenthetical of any
given name. -/
lemma paren_suffix_unique (s : List Char) :
    ∀ l1 ∈ CONDITION_NAMES, ∀ l2 ∈ CONDITION_NAMES,
      parensOf l1 <:+ s → parensOf l2 <:+ s → l1 = l2 := by
  intro l1 h1 l2 h2 hs1 hs2
  rcases List.suffix_or_suffix_of_suffix hs1 hs2 with h | h
  · exact paren_suffix_pairs l1 h1 l2 h2 h
  · exact (paren_suffix_pairs l2 h2 l1 h1 h).symm

/-- The scan over CONDITION_NAMES finds exactly the label whose
parenthetical form ends the name. -/
lemma findCondition_eq_some {s label : List Char} (hl : label ∈ CONDITION_NAMES)
    (hsfx : parensOf label <:+ s) : findCondition s = some label := by
  apply find?_eq_some_of_unique _ _ _ hl (decide_eq_true hsfx)
  intro b hb hpb
  exact paren_suffix_unique s b hb label hl (of_decide_eq_true hpb) hsfx

/-- C8: if a name ends with the parenthetical form of one of the five
fixed wear labels, `parse_market_hash_name` returns exactly that label as
the condition and computes the base by first slicing off the
parenthetical (with its separating whitespace, via `strip`) and only then
stripping the marker tokens; if no label is a trailing suffix the
condition is `none`; and the empty name yields the fully-empty default
tuple. -/
theorem parse_name_wear_condition (name : List Char) :
    (∀ label ∈ CONDITION_NAMES, parensOf label <:+ name →
      parse_market_hash_name name =
        ⟨stripMarkers (pyStrip (name.take (name.length - (label.length + 2)))),
         hasStatTrak name, hasSouvenir name, some label⟩) ∧
    ((∀ label ∈ CONDITION_NAMES, ¬ parensOf label <:+ name) →
      (parse_market_hash_name name).condition = none) ∧
    parse_market_hash_name [] = ⟨[], false, false, none⟩ := by
  refine ⟨?_, ?_, rfl⟩
  · intro label hl hsfx
    have hne : name ≠ [] := by
      intro h0
      subst h0
      have h1 := List.suffix_nil.mp hsfx
      simp [parensOf] at h1
    rw [parse_market_hash_name, if_neg hne, findCondition_eq_some hl hsfx]
  · intro hnone
    by_cases hne : name = []
    · subst hne; rfl
    · have hfc : findCondition name = none := by
        rw [findCondition, List.find?_eq_none]
        intro c hc
        simpa using hnone c hc
      rw [parse_market_hash_name, if_neg hne, hfc]

/-- Witness for C8 at a concrete wear-labelled StatTrak name. -/
theorem parse_name_wear_condition_witness :
    parse_market_hash_name "StatTrak™ AK-47 | Redline (Field-Tested)".data =
      ⟨"AK-47 | Redline".data, true, false, some "Field-Tested".data⟩ := by
  have h := (parse_name_wear_condition "StatTrak™ AK-47 | Redline (Field-Tested)".data).1
    "Field-Tested".data (by decide) (by decide)
  rw [h]
  decide

/-- Head of an append with non-empty left part. -/
lemma head?_append_left {a b : List Char} (h : a ≠ []) : (a ++ b).head? = a.head? := by
  cases a with
  | nil => exact absurd rfl h
  | cons c t => rfl

/-- A pipe-join headed by a non-empty part is non-empty. -/
lemma joinParts_ne_nil {p : List Char} (ps : List (List Char)) (hp : p ≠ []) :
    joinParts (p :: ps) ≠ [] := by
  cases ps with
  | nil => simpa [joinParts] using hp
  | cons q qs =>
    show p ++ '|' :: joinParts (q :: qs) ≠ []
    exact List.append_ne_nil_of_left_ne_nil hp _

/-- The first character of a pipe-join is the first character of its
first part. -/
lemma joinParts_head? {p : List Char} (ps : List (List Char)) (hp : p ≠ []) :
    (joinParts (p :: ps)).head? = p.head? := by
  cases ps with
  | nil => rfl
  | cons q qs => exact head?_append_left hp

/-- The last character of a pipe-join of non-empty parts is the last
character of one of the parts. -/
lemma joinParts_revHead (ps : List (List Char)) (hne : ∀ p ∈ ps, p ≠ []) (h0 : ps ≠ []) :
    ∃ q ∈ ps, (joinParts ps).reverse.head? = q.reverse.head? := by
  induction ps with
  | nil => exact absurd rfl h0
  | cons p rest ih =>
    cases rest with
    | nil => exact ⟨p, by simp, rfl⟩
    | cons q qs =>
      obtain ⟨r, hr, he⟩ := ih (fun x hx => hne x (List.mem_cons_of_mem _ hx)) (by simp)
      refine ⟨r, List.mem_cons_of_mem _ hr, ?_⟩
      have hJ : joinParts (q :: qs) ≠ [] := joinParts_ne_nil qs (hne q (by simp))
      have hrev : (joinParts (q :: qs)).reverse ≠ [] := by
        simpa using hJ
      show (p ++ '|' :: joinParts (q :: qs)).reverse.head? = _
      rw [List.reverse_append, List.reverse_cons,
        head?_append_left (List.append_ne_nil_of_left_ne_nil hrev _),
        head?_append_left hrev]
      exact he

/-- dropWhile is the identity when the head does not satisfy the
predicate. -/
lemma dropWhile_eq_self_of_head {s : List Char} (h : ∀ c, s.head? = some c → wsB c = false) :
    s.dropWhile wsB = s := by
  cases s with
  | nil => rfl
  | cons c t => simp [List.dropWhile_cons, h c rfl]

/-- strip is the identity on strings with no whitespace at either end. -/
lemma pyStrip_eq_self_of {s : List Char}
    (h1 : ∀ c, s.head? = some c → wsB c = false)
    (h2 : ∀ c, s.reverse.head? = some c → wsB c = false) :
    pyStrip s = s := by
  unfold pyStrip
  rw [dropWhile_eq_self_of_head h1, dropWhile_eq_self_of_head h2, List.reverse_reverse]

/-- dropWhile never lengthens a list. -/
lemma length_dropWhile_le (p : Char → Bool) (l : List Char) :
    (l.dropWhile p).length ≤ l.length :=
  (List.dropWhile_suffix p).length_le

/-- A strip-fixed string does not start with whitespace. -/
lemma pyStrip_head_not_ws {s : List Char} (hfix : pyStrip s = s) :
    ∀ c, s.head? = some c → wsB c = false := by
  intro c hc
  by_contra hws
  rw [Bool.not_eq_false] at hws
  cases s with
  | nil => cases hc
  | cons d t =>
    have hd : d = c := by
      have : some d = some c := hc
      injection this
    subst hd
    have h2 : (pyStrip (d :: t)).length ≤ t.length := by
      unfold pyStrip
      rw [List.dropWhile_cons, if_pos hws, List.length_reverse]
      have a1 := length_dropWhile_le wsB (List.dropWhile wsB t).reverse
      have a2 := length_dropWhile_le wsB t
      rw [List.length_reverse] at a1
      omega
    rw [hfix] at h2
    simp at h2

/-- A strip-fixed string does not end with whitespace. -/
lemma pyStrip_rev_head_not_ws {s : List Char} (hfix : pyStrip s = s) :
    ∀ c, s.reverse.head? = some c → wsB c = false := by
  intro c hc
  by_contra hws
  rw [Bool.not_eq_false] at hws
  have hs1 : s.dropWhile wsB = s := by
    apply (List.dropWhile_suffix wsB).eq_of_length
    have e1 : (pyStrip s).length ≤ (s.dropWhile wsB).length := by
      unfold pyStrip
      rw [List.length_reverse]
      have a1 := length_dropWhile_le wsB (s.dropWhile wsB).reverse
      rw [List.length_reverse] at a1
      exact a1
    have e2 := length_dropWhile_le wsB s
    rw [hfix] at e1
    omega
  have hs2 : s.reverse.dropWhile wsB = s.reverse := by
    have h3 : ((s.dropWhile wsB).reverse.dropWhile wsB).reverse = s := hfix
    rw [hs1] at h3
    have h4 := congrArg List.reverse h3
    rw [List.reverse_reverse] at h4
    exact h4
  cases hrev : s.reverse with
  | nil => rw [hrev] at hc; cases hc
  | cons d t =>
    rw [hrev] at hc hs2
    have hd : d = c := by
      have : some d = some c := hc
      injection this
    subst hd
    rw [List.dropWhile_cons, if_pos hws] at hs2
    have := length_dropWhile_le wsB t
    rw [hs2] at this
    simp at this

/-- strip is the identity on a pipe-join of non-empty strip-fixed parts. -/
lemma pyStrip_joinParts (F : List (List Char))
    (h : ∀ p ∈ F, p ≠ [] ∧ pyStrip p = p) :
    pyStrip (joinParts F) = joinParts F := by
  cases F with
  | nil => rfl
  | cons p rest =>
    apply pyStrip_eq_self_of
    · intro c hc
      rw [joinParts_head? rest (h p (by simp)).1] at hc
      exact pyStrip_head_not_ws (h p (by simp)).2 c hc
    · intro c hc
      obtain ⟨q, hq, he⟩ := joinParts_revHead (p :: rest) (fun x hx => (h x hx).1) (by simp)
      rw [he] at hc
      exact pyStrip_rev_head_not_ws (h q hq).2 c hc

/-- Appends around the first pipe cancel when neither left part contains
a pipe. -/
lemma append_pipe_cancel : ∀ (a b u v : List Char), '|' ∉ a → '|' ∉ b →
    a ++ '|' :: u = b ++ '|' :: v → a = b ∧ u = v := by
  intro a
  induction a with
  | nil =>
    intro b u v _ hb he
    cases b with
    | nil => simpa using he
    | cons d t =>
      simp only [List.nil_append, List.cons_append] at he
      injection he with h1 h2
      exact absurd (h1 ▸ List.mem_cons_self d t) hb
  | cons x a2 ih =>
    intro b u v ha hb he
    cases b with
    | nil =>
      simp only [List.nil_append, List.cons_append] at he
      injection he with h1 h2
      exact absurd (h1 ▸ List.mem_cons_self x a2) ha
    | cons y b2 =>
      simp only [List.cons_append] at he
      injection he with h1 h2
      subst h1
      obtain ⟨e1, e2⟩ := ih b2 u v (fun hm => ha (List.mem_cons_of_mem _ hm))
        (fun hm => hb (List.mem_cons_of_mem _ hm)) h2
      exact ⟨by rw [e1], e2⟩

/-- The pipe-join is injective on equal-length lists of pipe-free parts. -/
lemma joinParts_inj : ∀ (F G : List (List Char)), F.length = G.length →
    (∀ p ∈ F, '|' ∉ p) → (∀ p ∈ G, '|' ∉ p) →
    joinParts F = joinParts G → F = G := by
  intro F
  induction F with
  | nil =>
    intro G hlen _ _ _
    cases G with
    | nil => rfl
    | cons q G2 => simp at hlen
  | cons p F2 ih =>
    intro G hlen hF hG he
    cases G with
    | nil => simp at hlen
    | cons q G2 =>
      cases F2 with
      | nil =>
        cases G2 with
        | nil =>
          have hpq : p = q := he
          rw [hpq]
        | cons r G3 => simp at hlen
      | cons p2 F3 =>
        cases G2 with
        | nil => simp at hlen
        | cons q2 G3 =>
          have he2 : p ++ '|' :: joinParts (p2 :: F3) = q ++ '|' :: joinParts (q2 :: G3) := he
          obtain ⟨e1, e2⟩ := append_pipe_cancel p q _ _ (hF p (by simp)) (hG q (by simp)) he2
          have e3 := ih (q2 :: G3) (by simpa using hlen)
            (fun x hx => hF x (List.mem_cons_of_mem _ hx))
            (fun x hx => hG x (List.mem_cons_of_mem _ hx)) e2
          rw [e1, e3]

/-- Empty-filtering two lists with the same emptiness pattern yields
lists of equal length. -/
lemma filter_shape_length {ps qs : List (List Char)}
    (h : List.Forall₂ (fun a b => a = [] ↔ b = []) ps qs) :
    (ps.filter (fun p => !p.isEmpty)).length = (qs.filter (fun p => !p.isEmpty)).length := by
  induction h with
  | nil => rfl
  | @cons a b l1 l2 hab htail ih =>
    by_cases ha : a = []
    · have hb := hab.mp ha
      subst ha
      subst hb
      simpa using ih
    · have hb : b ≠ [] := fun h2 => ha (hab.mpr h2)
      rw [List.filter_cons_of_pos (by simpa [List.isEmpty_iff] using ha),
        List.filter_cons_of_pos (by simpa [List.isEmpty_iff] using hb)]
      simpa using ih

/-- Two lists with the same emptiness pattern and equal empty-filterings
are equal. -/
lemma shape_filter_eq {ps qs : List (List Char)}
    (h : List.Forall₂ (fun a b => a = [] ↔ b = []) ps qs)
    (hfe : ps.filter (fun p => !p.isEmpty) = qs.filter (fun p => !p.isEmpty)) : ps = qs := by
  induction h with
  | nil => rfl
  | @cons a b l1 l2 hab htail ih =>
    by_cases ha : a = []
    · have hb := hab.mp ha
      subst ha
      subst hb
      rw [List.filter_cons_of_neg (by simp), List.filter_cons_of_neg (by simp)] at hfe
      rw [ih hfe]
    · have hb : b ≠ [] := fun h2 => ha (hab.mpr h2)
      rw [List.filter_cons_of_pos (by simpa [List.isEmpty_iff] using ha),
        List.filter_cons_of_pos (by simpa [List.isEmpty_iff] using hb)] at hfe
      injection hfe with h1 h2
      rw [h1, ih h2]

/-- C3 counterexample: a tuple with a wear condition and no phase and the
tuple with no wear condition and a phase of the same text are distinct,
pipe-free, and produce the same key, refuting injectivity as claimed. -/
theorem build_item_key_collision :
    build_item_key "A".data false false (some "X".data) none =
      build_item_key "A".data false false none (some "X".data) ∧
    ("A".data, false, false, some "X".data, (none : Option (List Char))) ≠
      ("A".data, false, false, (none : Option (List Char)), some "X".data) ∧
    '|' ∉ "A".data ∧ '|' ∉ "X".data := ⟨rfl, by decide, by decide, by decide⟩

/-- C3 amended: `build_item_key` is injective over attribute tuples whose
components are pipe-free and strip-fixed, provided the two tuples agree
on the variant flags and on which of base name, condition and phase are
non-empty (the dropped-empty join encodes components only by order, so
tuples that redistribute the same non-empty texts across different slots
can collide, as the counterexample shows).  Condition and phase are
compared after the `or ""` normalisation the source applies. -/
theorem build_item_key_inj (nb₁ nb₂ : List Char) (st sv : Bool)
    (c₁ c₂ p₁ p₂ : Option (List Char))
    (hsep1 : ∀ q ∈ mkParts nb₁ st sv c₁ p₁, '|' ∉ q)
    (hsep2 : ∀ q ∈ mkParts nb₂ st sv c₂ p₂, '|' ∉ q)
    (hfix1 : ∀ q ∈ mkParts nb₁ st sv c₁ p₁, pyStrip q = q)
    (hfix2 : ∀ q ∈ mkParts nb₂ st sv c₂ p₂, pyStrip q = q)
    (hshape1 : nb₁ = [] ↔ nb₂ = [])
    (hshape2 : c₁.getD [] = [] ↔ c₂.getD [] = [])
    (hshape3 : p₁.getD [] = [] ↔ p₂.getD [] = [])
    (heq : build_item_key nb₁ st sv c₁ p₁ = build_item_key nb₂ st sv c₂ p₂) :
    nb₁ = nb₂ ∧ c₁.getD [] = c₂.getD [] ∧ p₁.getD [] = p₂.getD [] := by
  have hsh : List.Forall₂ (fun a b => a = [] ↔ b = [])
      (mkParts nb₁ st sv c₁ p₁) (mkParts nb₂ st sv c₂ p₂) :=
    List.Forall₂.cons hshape1 (List.Forall₂.cons Iff.rfl (List.Forall₂.cons Iff.rfl
      (List.Forall₂.cons hshape2 (List.Forall₂.cons hshape3 List.Forall₂.nil))))
  have hj1 := pyStrip_joinParts ((mkParts nb₁ st sv c₁ p₁).filter (fun p => !p.isEmpty))
    (fun p hp => by
      have hm := List.mem_filter.mp hp
      exact ⟨by simpa [List.isEmpty_iff] using hm.2, hfix1 p hm.1⟩)
  have hj2 := pyStrip_joinParts ((mkParts nb₂ st sv c₂ p₂).filter (fun p => !p.isEmpty))
    (fun p hp => by
      have hm := List.mem_filter.mp hp
      exact ⟨by simpa [List.isEmpty_iff] using hm.2, hfix2 p hm.1⟩)
  rw [build_item_key, build_item_key, hj1, hj2] at heq
  have hF := joinParts_inj _ _ (filter_shape_length hsh)
    (fun p hp => hsep1 p (List.mem_filter.mp hp).1)
    (fun p hp => hsep2 p (List.mem_filter.mp hp).1) heq
  have hparts := shape_filter_eq hsh hF
  have h5 : nb₁ = nb₂ ∧ c₁.getD [] = c₂.getD [] ∧ p₁.getD [] = p₂.getD [] := by
    simp only [mkParts, List.cons.injEq, and_true] at hparts
    exact ⟨hparts.1, hparts.2.2.2.1, hparts.2.2.2.2⟩
  exact h5

/-- Witness for the amended C3 at a concrete StatTrak tuple. -/
theorem build_item_key_inj_witness :
    "AK-47".data = "AK-47".data ∧
    (some "Factory New".data).getD [] = (some "Factory New".data).getD [] ∧
    (none : Option (List Char)).getD [] = (none : Option (List Char)).getD [] :=
  build_item_key_inj "AK-47".data "AK-47".data true false
    (some "Factory New".data) (some "Factory New".data) none none
    (by decide) (by decide) (by decide) (by decide) Iff.rfl Iff.rfl Iff.rfl rfl

/-- JSON values as delivered by the feed parser.  Numbers carry the
rational value of the literal (the source receives Python ints/floats,
for which `isinstance(x, (int, float))` holds). -/
inductive Json where
  | null : Json
  | bool : Bool → Json
  | num : ℚ → Json
  | str : List Char → Json
  | arr : List Json → Json
  | obj : List (List Char × Json) → Json

/-- A raw product record: the key/value pairs of one feed dict. -/
def Rec : Type := List (List Char × Json)

/-- Python truthiness of a JSON value (`None`, `False`, `0`, `""` and
empty containers are falsy). -/
def truthy : Json → Bool
  | .null => false
  | .bool b => b
  | .num q => decide (q ≠ 0)
  | .str s => !s.isEmpty
  | .arr xs => !xs.isEmpty
  | .obj kvs => !kvs.isEmpty

/-- Python `a or b`: the first operand if truthy, else the second. -/
def pyOr (a b : Json) : Json := if truthy a then a else b

/-- Digit rendering of a natural number. -/
def natToChars (n : Nat) : List Char := Nat.toDigits 10 n

/-- Digit rendering of an integer. -/
def intToChars (i : ℤ) : List Char :=
  if i < 0 then '-' :: natToChars i.natAbs else natToChars i.natAbs

/-- Rendering of a rational: exact for integers, which is the only case a
feed identifier exercises; the non-integral rendering (numerator slash
denominator) abbreviates Python repr and no theorem depends on it. -/
def numToChars (q : ℚ) : List Char :=
  if q.den = 1 then intToChars q.num else intToChars q.num ++ '/' :: natToChars q.den

/-- Python `str(...)` of a JSON value.  Container rendering is
abbreviated (no theorem depends on it; the source only applies `str` to
identifier and name fields). -/
def pyStr : Json → List Char
  | .null => "None".data
  | .bool true => "True".data
  | .bool false => "False".data
  | .num q => numToChars q
  | .str s => s
  | .arr _ => "[...]".data
  | .obj _ => "\x7b...\x7d".data

/-- `p.get(k)`: value of the first matching key, `None` when absent. -/
def lookupRec (p : Rec) (k : List Char) : Option Json :=
  (List.find? (fun kv => decide (kv.1 = k)) p).map (fun kv => kv.2)

/-- `p.get(k)` as a JSON value (absent becomes `None`). -/
def pyGet (p : Rec) (k : List Char) : Json := (lookupRec p k).getD Json.null

/-- An `or` chain of `p.get` calls ending in `""`, as in lines 190-204. -/
def orChain (p : Rec) (ks : List (List Char)) : Json :=
  ks.foldr (fun k acc => pyOr (pyGet p k) acc) (Json.str [])

/-- Lines 190-204: derive the grouping identifier: the class-id field
chain, falling back to the name field chain; empty string means
unroutable. -/
def deriveClassId (p : Rec) : List Char :=
  let c1 := pyStr (orChain p
    ["product_class_id".data, "class_id".data, "classid".data, "productClassId".data])
  if c1 = [] then
    pyStr (orChain p
      ["name_hash".data, "hash_name".data, "market_hash_name".data, "name".data])
  else c1

/-- Lines 218-224: the sampled name of a group representative (note the
order differs from the class-id fallback chain). -/
def sampleName (sample : Rec) : List Char :=
  pyStr (orChain sample
    ["name_hash".data, "market_hash_name".data, "hash_name".data, "name".data])

/-- Line 227: the ordered price field candidates. -/
def priceFields : List (List Char) :=
  ["price".data, "price_usd".data, "price_cents".data, "amount".data, "value".data]

/-- JSON null test (`x is None`). -/
def isNull : Json → Bool
  | .null => true
  | _ => false

/-- Lines 227-228: first price field present in the sample with a
non-`None` value. -/
def findPriceField (sample : Rec) : Option (List Char × Json) :=
  priceFields.findSome? (fun f =>
    match lookupRec sample f with
    | some v => if isNull v then none else some (f, v)
    | none => none)

/-- Lines 225-241: extract the price from the sample record: textual
values are parsed as floats after normalising the comma separator, a
`_cents` field name divides by 100, parse failures and non-numeric
values yield `None` (never zero). -/
def extractPrice (sample : Rec) : Option ℚ :=
  match findPriceField sample with
  | none => none
  | some (f, v) =>
    let cents := decide ("_cents".data <:+ f)
    match v with
    | .str s =>
      match pyFloat (pyReplace [','] ['.'] s) with
      | some q => some (if cents then q / 100 else q)
      | none => none
    | .num q => some (if cents then q / 100 else q)
    | .bool b => some (if cents then (if b then (1 : ℚ) else 0) / 100 else if b then 1 else 0)
    | _ => none

/-- Lines 242-244: the phase: `product_phase or phase`, stringified when
truthy, else `None`. -/
def samplePhase (sample : Rec) : Option (List Char) :=
  let ph := pyOr (pyGet sample "product_phase".data) (pyGet sample "phase".data)
  if truthy ph then some (pyStr ph) else none

/-- One aggregated output row (the dict built at lines 248-257; the
injected clock stands for `datetime.now(timezone.utc)`). -/
structure AggRow where
  item_key : List Char
  name_base : List Char
  stattrak : Bool
  souvenir : Bool
  condition : Option (List Char)
  price_whitemarket : Option ℚ
  qty_whitemarket : Nat
  fetched_at : ℤ
  deriving DecidableEq

/-- All fields of a row except the timestamp. -/
def AggRow.sans (r : AggRow) :
    List Char × List Char × Bool × Bool × Option (List Char) × Option ℚ × Nat :=
  (r.item_key, r.name_base, r.stattrak, r.souvenir, r.condition,
   r.price_whitemarket, r.qty_whitemarket)

/-- Python dict assignment `m[k] = v`: replace in place, else append. -/
def dictInsert {V : Type} : List (List Char × V) → List Char → V → List (List Char × V)
  | [], k, v => [(k, v)]
  | (k0, v0) :: rest, k, v =>
    if k0 = k then (k, v) :: rest else (k0, v0) :: dictInsert rest k v

/-- Append a record to its class-id bucket, creating the bucket at the
end on first sight (Python dict insertion order). -/
def addRec : List (List Char × List Rec) → List Char → Rec → List (List Char × List Rec)
  | [], cid, p => [(cid, [p])]
  | (k, items) :: rest, cid, p =>
    if k = cid then (k, items ++ [p]) :: rest else (k, items) :: addRec rest cid p

/-- One grouping step of lines 189-211: skip unroutable records, append
the rest to their bucket. -/
def bucketStep (bs : List (List Char × List Rec)) (p : Rec) : List (List Char × List Rec) :=
  let cid := deriveClassId p
  if cid = [] then bs else addRec bs cid p

/-- Lines 188-211: group the records by derived class id, dropping
unroutable records. -/
def buildBuckets (ps : List Rec) : List (List Char × List Rec) :=
  ps.foldl bucketStep []

/-- Lines 215-257: reduce one bucket to its keyed output row; the first
record is the sample, the bucket size is the quantity. -/
def mkAggRow (sample : Rec) (qty : Nat) (now : ℤ) : List Char × AggRow :=
  let pn := parse_market_hash_name (sampleName sample)
  let ph := samplePhase sample
  let key := build_item_key pn.name_base pn.stattrak pn.souvenir pn.condition ph
  (key,
   { item_key := key, name_base := pn.name_base, stattrak := pn.stattrak,
     souvenir := pn.souvenir, condition := pn.condition,
     price_whitemarket := extractPrice sample, qty_whitemarket := qty,
     fetched_at := now })

/-- Fold step over one bucket (`results[item_key] = \x7b...\x7d`). -/
def aggStep (now : ℤ) (res : List (List Char × AggRow)) (b : List Char × List Rec) :
    List (List Char × AggRow) :=
  match b.2 with
  | [] => res
  | sample :: _ =>
    let kr := mkAggRow sample b.2.length now
    dictInsert res kr.1 kr.2

/-- Lines 187-258: `aggregate_whitemarket`, with the wall-clock reading
passed explicitly. -/
def aggregate_whitemarket (products : List Rec) (now : ℤ) : List (List Char × AggRow) :=
  (buildBuckets products).foldl (aggStep now) []

/-- A record with class id `"A"` and sampled name `"X"`. -/
def c1ra : Rec :=
  [("class_id".data, Json.str "A".data), ("market_hash_name".data, Json.str "X".data)]

/-- A record with class id `"B"` and the same sampled name `"X"`. -/
def c1rb : Rec :=
  [("class_id".data, Json.str "B".data), ("market_hash_name".data, Json.str "X".data)]

/-- A record with class id `"A"` and sampled name `"Widget"`. -/
def c1wa : Rec :=
  [("class_id".data, Json.str "A".data), ("market_hash_name".data, Json.str "Widget".data)]

/-- A second record with the same class id `"A"` and name `"Widget"`. -/
def c1wb : Rec :=
  [("class_id".data, Json.str "A".data), ("market_hash_name".data, Json.str "Widget".data),
   ("extra".data, Json.null)]

/-- A routable record used for the determinism claim. -/
def c5r : Rec :=
  [("class_id".data, Json.str "A".data), ("name".data, Json.str "X".data)]

/-- A grouping step on a single bucket whose id matches the record's
appends the record to that bucket. -/
lemma bucketStep_const {cid : List Char} {p : Rec} (hcid : cid ≠ [])
    (hp : deriveClassId p = cid) (acc : List Rec) :
    bucketStep [(cid, acc)] p = [(cid, acc ++ [p])] := by
  simp [bucketStep, hp, hcid, addRec]

/-- Folding records that all derive the same non-empty class id into a
single bucket accumulates them all there. -/
lemma foldl_bucketStep_const {cid : List Char} (hcid : cid ≠ []) :
    ∀ (rs : List Rec) (acc : List Rec), (∀ r ∈ rs, deriveClassId r = cid) →
      rs.foldl bucketStep [(cid, acc)] = [(cid, acc ++ rs)] := by
  intro rs
  induction rs with
  | nil => intro acc _; simp
  | cons r rest ih =>
    intro acc hall
    rw [List.foldl_cons, bucketStep_const hcid (hall r (by simp)) acc,
      ih (acc ++ [r]) (fun x hx => hall x (List.mem_cons_of_mem _ hx)),
      List.append_assoc]
    rfl

/-- Records that all derive one non-empty class id build one bucket. -/
lemma buildBuckets_const {cid : List Char} (hcid : cid ≠ []) (r : Rec) (rest : List Rec)
    (hall : ∀ x ∈ r :: rest, deriveClassId x = cid) :
    buildBuckets (r :: rest) = [(cid, r :: rest)] := by
  unfold buildBuckets
  rw [List.foldl_cons]
  have h1 : bucketStep [] r = [(cid, [r])] := by
    simp [bucketStep, hall r (by simp), hcid, addRec]
  rw [h1, foldl_bucketStep_const hcid rest [r]
    (fun x hx => hall x (List.mem_cons_of_mem _ hx))]
  rfl

/-- C1 counterexample: two records whose sampled names normalize to the
same attribute tuple but carry different class ids aggregate into one
AggregatedItem whose listing count is 1 (the last group's own count),
not their combined count 2. -/
theorem aggregate_cross_class_undercount :
    parse_market_hash_name (sampleName c1ra) = parse_market_hash_name (sampleName c1rb) ∧
    deriveClassId c1ra ≠ deriveClassId c1rb ∧
    (aggregate_whitemarket [c1ra, c1rb] 0).map (fun kv => (kv.1, kv.2.qty_whitemarket)) =
      [("X".data, 1)] := ⟨by decide, by decide, by decide⟩

/-- C1 amended: when all records of the feed derive the same non-empty
class-id grouping identifier, aggregation produces exactly one
AggregatedItem whose listing count is the combined count of all the
records; with differing grouping identifiers the records land in
different groups and the shared item key retains only the last group's
count (see the counterexample). -/
theorem aggregate_same_class_count (rs : List Rec) (cid : List Char) (now : ℤ)
    (hcid : cid ≠ []) (hne : rs ≠ []) (hall : ∀ r ∈ rs, deriveClassId r = cid) :
    ∃ key row, aggregate_whitemarket rs now = [(key, row)] ∧
      row.qty_whitemarket = rs.length := by
  cases rs with
  | nil => exact absurd rfl hne
  | cons r rest =>
    unfold aggregate_whitemarket
    rw [buildBuckets_const hcid r rest hall, List.foldl_cons, List.foldl_nil]
    exact ⟨_, _, rfl, rfl⟩

/-- Witness for the amended C1: two same-class records, combined count 2. -/
theorem aggregate_same_class_count_witness :
    ∃ key row, aggregate_whitemarket [c1wa, c1wb] 11 = [(key, row)] ∧
      row.qty_whitemarket = [c1wa, c1wb].length :=
  aggregate_same_class_count [c1wa, c1wb] "A".data 11 (by decide)
    (List.cons_ne_nil _ _) (by decide)

/-- Mapping a value transformation commutes with dict assignment. -/
lemma map_dictInsert {V W : Type} (f : V → W) (m : List (List Char × V))
    (k : List Char) (v : V) :
    (dictInsert m k v).map (fun kv => (kv.1, f kv.2)) =
      dictInsert (m.map (fun kv => (kv.1, f kv.2))) k (f v) := by
  induction m with
  | nil => rfl
  | cons kv0 rest ih =>
    obtain ⟨k0, v0⟩ := kv0
    by_cases hk : k0 = k
    · simp [dictInsert, hk]
    · simp [dictInsert, hk, ih]

/-- The aggregation fold depends on the clock only through the
`fetched_at` field: projecting it away makes the two folds equal. -/
lemma aggFold_sans (t₁ t₂ : ℤ) (bs : List (List Char × List Rec)) :
    ∀ acc₁ acc₂ : List (List Char × AggRow),
      acc₁.map (fun kv => (kv.1, kv.2.sans)) = acc₂.map (fun kv => (kv.1, kv.2.sans)) →
      (bs.foldl (aggStep t₁) acc₁).map (fun kv => (kv.1, kv.2.sans)) =
        (bs.foldl (aggStep t₂) acc₂).map (fun kv => (kv.1, kv.2.sans)) := by
  induction bs with
  | nil => intro a b h; simpa using h
  | cons b rest ih =>
    intro acc₁ acc₂ h
    rw [List.foldl_cons, List.foldl_cons]
    apply ih
    rcases hb : b.2 with _ | ⟨sample, items⟩
    · simp only [aggStep, hb, h]
    · simp only [aggStep, hb]
      rw [map_dictInsert, map_dictInsert, h]
      have hk : (mkAggRow sample (sample :: items).length t₁).1 =
          (mkAggRow sample (sample :: items).length t₂).1 := rfl
      have hs : (mkAggRow sample (sample :: items).length t₁).2.sans =
          (mkAggRow sample (sample :: items).length t₂).2.sans := rfl
      rw [hk, hs]

/-- C5 counterexample: the aggregator stamps rows with the wall clock, so
two runs over the identical raw sequence at different clock readings
produce maps that differ (exactly) in `fetched_at`. -/
theorem aggregate_clock_dependence :
    (aggregate_whitemarket [c5r] 0).map (fun kv => kv.2.fetched_at) = [0] ∧
    (aggregate_whitemarket [c5r] 1).map (fun kv => kv.2.fetched_at) = [1] ∧
    aggregate_whitemarket [c5r] 0 ≠ aggregate_whitemarket [c5r] 1 :=
  ⟨by decide, by decide, by decide⟩

/-- C5 amended: aggregation is a pure function of the raw sequence and
the clock reading: equal inputs yield result maps equal on every field
except `fetched_at`, and additionally equal clock readings yield fully
identical result maps (including `fetched_at`). -/
theorem aggregate_deterministic (rs₁ rs₂ : List Rec) (t₁ t₂ : ℤ) (h : rs₁ = rs₂) :
    (aggregate_whitemarket rs₁ t₁).map (fun kv => (kv.1, kv.2.sans)) =
      (aggregate_whitemarket rs₂ t₂).map (fun kv => (kv.1, kv.2.sans)) ∧
    (t₁ = t₂ → aggregate_whitemarket rs₁ t₁ = aggregate_whitemarket rs₂ t₂) := by
  subst h
  refine ⟨?_, fun ht => by rw [ht]⟩
  exact aggFold_sans t₁ t₂ (buildBuckets rs₁) [] [] rfl

/-- Witness for the amended C5 at distinct clock readings. -/
theorem aggregate_deterministic_witness :
    (aggregate_whitemarket [c5r] 3).map (fun kv => (kv.1, kv.2.sans)) =
      (aggregate_whitemarket [c5r] 7).map (fun kv => (kv.1, kv.2.sans)) :=
  (aggregate_deterministic [c5r] [c5r] 3 7 rfl).1

/-- C7: a sampled `price_cents` of `"250"` yields price 2.50, a sampled
`price` of `"1,5"` yields 1.5 (comma normalised to a period), and a
sample with none of the recognized price fields yields no price at all
(`None`, never zero). -/
theorem price_extraction (sample : Rec)
    (habsent : ∀ f ∈ priceFields, (lookupRec sample f).isNone = true) :
    extractPrice [("price_cents".data, Json.str "250".data)] = some (5 / 2 : ℚ) ∧
    extractPrice [("price".data, Json.str "1,5".data)] = some (3 / 2 : ℚ) ∧
    extractPrice sample = none := by
  refine ⟨?_, ?_, ?_⟩
  · have h1 : extractPrice [("price_cents".data, Json.str "250".data)] =
        some ((digitsToNat "250".data : ℚ) / 100) := rfl
    rw [h1, show digitsToNat "250".data = 250 from rfl]
    norm_num
  · have h1 : extractPrice [("price".data, Json.str "1,5".data)] =
        some ((digitsToNat "1".data : ℚ) + (digitsToNat "5".data : ℚ) / (10 ^ 1 : ℚ)) := rfl
    rw [h1, show digitsToNat "1".data = 1 from rfl, show digitsToNat "5".data = 5 from rfl]
    norm_num
  · have hf : findPriceField sample = none := by
      have h1 := Option.isNone_iff_eq_none.mp (habsent "price".data (by simp [priceFields]))
      have h2 := Option.isNone_iff_eq_none.mp (habsent "price_usd".data (by simp [priceFields]))
      have h3 := Option.isNone_iff_eq_none.mp (habsent "price_cents".data (by simp [priceFields]))
      have h4 := Option.isNone_iff_eq_none.mp (habsent "amount".data (by simp [priceFields]))
      have h5 := Option.isNone_iff_eq_none.mp (habsent "value".data (by simp [priceFields]))
      simp [findPriceField, priceFields, List.findSome?_cons, h1, h2, h3, h4, h5]
    unfold extractPrice
    rw [hf]

/-- Witness for C7: concrete cents parsing and a sample with no
recognized price field. -/
theorem price_extraction_witness :
    extractPrice [("price_cents".data, Json.str "250".data)] = some (5 / 2 : ℚ) ∧
    extractPrice [("foo".data, Json.str "bar".data)] = none := by
  have h := price_extraction [("foo".data, Json.str "bar".data)] (by decide)
  exact ⟨h.1, h.2.2⟩

/-- Lines 116-124: `chunked` buffers incoming rows and yields a batch as
soon as the buffer reaches `size`, plus any trailing partial buffer. -/
def chunkedGo {α : Type} (size : Nat) : List α → List α → List (List α)
  | [], buf => if buf.isEmpty then [] else [buf]
  | x :: xs, buf =>
    if size ≤ buf.length + 1 then (buf ++ [x]) :: chunkedGo size xs []
    else chunkedGo size xs (buf ++ [x])

/-- `chunked(iterable, size)` with an empty starting buffer. -/
def chunked {α : Type} (l : List α) (size : Nat) : List (List α) := chunkedGo size l []

/-- Invariants of the chunking fold: concatenation restores the input,
every yielded chunk but the last is exactly full, and every chunk is
non-empty and within the batch size. -/
lemma chunkedGo_props {α : Type} (size : Nat) (h : 0 < size) :
    ∀ (l buf : List α), buf.length < size →
      ((chunkedGo size l buf).foldr (· ++ ·) [] = buf ++ l) ∧
      (∀ c ∈ (chunkedGo size l buf).dropLast, c.length = size) ∧
      (∀ c ∈ chunkedGo size l buf, 0 < c.length ∧ c.length ≤ size) := by
  intro l
  induction l with
  | nil =>
    intro buf hbuf
    by_cases hb : buf.isEmpty
    · have : buf = [] := by simpa [List.isEmpty_iff] using hb
      subst this
      refine ⟨rfl, ?_, ?_⟩ <;> simp [chunkedGo]
    · have hbne : buf ≠ [] := by simpa [List.isEmpty_iff] using hb
      refine ⟨?_, ?_, ?_⟩
      · simp [chunkedGo, hb]
      · simp [chunkedGo, hb]
      · intro c hc
        simp only [chunkedGo, hb] at hc
        rw [if_neg (by simp [List.isEmpty_iff, hbne])] at hc
        rw [List.mem_singleton] at hc
        subst hc
        exact ⟨List.length_pos.mpr hbne, Nat.le_of_lt hbuf⟩
  | cons x xs ih =>
    intro buf hbuf
    by_cases hfull : size ≤ buf.length + 1
    · have hlen : buf.length + 1 = size := Nat.le_antisymm hbuf hfull
      obtain ⟨ih1, ih2, ih3⟩ := ih [] h
      refine ⟨?_, ?_, ?_⟩
      · simp only [chunkedGo, if_pos hfull, List.foldr_cons, ih1]
        simp [List.append_assoc]
      · intro c hc
        simp only [chunkedGo, if_pos hfull] at hc
        rcases hrest : chunkedGo size xs ([] : List α) with _ | ⟨c0, cs⟩
        · rw [hrest] at hc
          simp at hc
        · rw [hrest] at hc
          rw [List.dropLast_cons₂] at hc
          rcases List.mem_cons.mp hc with h1 | h1
          · rw [h1]
            simpa using hlen
          · rw [← hrest] at h1
            exact ih2 c h1
      · intro c hc
        simp only [chunkedGo, if_pos hfull] at hc
        rcases List.mem_cons.mp hc with h1 | h1
        · rw [h1]
          constructor
          · simp
          · simpa using Nat.le_of_eq hlen
        · exact ih3 c h1
    · have hlt : buf.length + 1 < size := Nat.lt_of_not_le hfull
      obtain ⟨ih1, ih2, ih3⟩ := ih (buf ++ [x]) (by simpa using hlt)
      refine ⟨?_, ?_, ?_⟩
      · simp only [chunkedGo, if_neg hfull, ih1]
        simp
      · intro c hc
        simp only [chunkedGo, if_neg hfull] at hc
        exact ih2 c hc
      · intro c hc
        simp only [chunkedGo, if_neg hfull] at hc
        exact ih3 c hc

set_option maxRecDepth 8000 in
/-- C9: chunking with a positive batch size partitions the rows: the
chunks concatenate back to the input, every chunk except possibly the
last has exactly the configured size, every chunk is non-empty and never
oversized; and 1050 rows at batch size 500 make exactly the three chunks
of sizes 500, 500 and 50. -/
theorem chunked_partition {α : Type} (l : List α) (size : Nat) (h : 0 < size) :
    ((chunked l size).foldr (· ++ ·) [] = l) ∧
    (∀ c ∈ (chunked l size).dropLast, c.length = size) ∧
    (∀ c ∈ chunked l size, 0 < c.length ∧ c.length ≤ size) ∧
    (chunked (List.replicate 1050 0) 500).map List.length = [500, 500, 50] := by
  obtain ⟨h1, h2, h3⟩ := chunkedGo_props size h l [] (by simpa using h)
  refine ⟨h1, h2, h3, ?_⟩
  decide

/-- Witness for C9 at three rows with batch size two, plus the concrete
1050-row partition. -/
theorem chunked_partition_witness :
    (chunked [1, 2, 3] 2).foldr (· ++ ·) [] = [1, 2, 3] ∧
    (chunked (List.replicate 1050 0) 500).map List.length = [500, 500, 50] := by
  have h := chunked_partition [1, 2, 3] 2 (by decide)
  exact ⟨h.1, h.2.2.2⟩

/-- Execution of the chunk loop of lines 128-129 against a store oracle:
the first component lists the chunks whose `execute()` completed (the
store's committed side effects, in order), the second the exception that
escaped to the caller, if any.  The source wraps the loop in no handler:
the store's exception propagates unchanged. -/
def upsertRun {α ε : Type} (store : List α → Except ε Unit) :
    List (List α) → List (List α) × Option ε
  | [] => ([], none)
  | c :: cs =>
    match store c with
    | .ok _ =>
      let r := upsertRun store cs
      (c :: r.1, r.2)
    | .error e => ([], some e)

/-- Lines 127-129: `upsert_market_rows` upserts chunk after chunk. -/
def upsert_market_rows {α ε : Type} (store : List α → Except ε Unit)
    (rows : List α) (size : Nat) : List (List α) × Option ε :=
  upsertRun store (chunked rows size)

/-- C6 counterexample: a failure on the first chunk (zero rows
confirmed) and a failure on the second chunk (two rows confirmed)
surface the identical store error to the caller — the reported failure
carries neither the failing chunk's index nor a confirmed-row count. -/
theorem upsert_failure_opaque :
    (upsert_market_rows
      (fun c : List Nat => if c = [1, 2] then Except.error "APIError".data else Except.ok ())
      [1, 2, 3, 4] 2).2 =
    (upsert_market_rows
      (fun c : List Nat => if c = [3, 4] then Except.error "APIError".data else Except.ok ())
      [1, 2, 3, 4] 2).2 ∧
    (upsert_market_rows
      (fun c : List Nat => if c = [1, 2] then Except.error "APIError".data else Except.ok ())
      [1, 2, 3, 4] 2).1.length = 0 ∧
    (upsert_market_rows
      (fun c : List Nat => if c = [3, 4] then Except.error "APIError".data else Except.ok ())
      [1, 2, 3, 4] 2).1.length = 1 := ⟨rfl, rfl, rfl⟩

/-- C6 amended: when one chunk's upsert fails, every earlier chunk's
upsert has already executed and stays executed (no rollback), and the
store's exception propagates to the caller unswallowed — but it is the
store's own error value, with no chunk index, row count or confirmed-row
count attached by this code. -/
theorem upsert_chunk_failure {α ε : Type} (store : List α → Except ε Unit)
    (rows : List α) (size : Nat) (pre : List (List α)) (c : List α)
    (post : List (List α)) (e : ε)
    (hsplit : chunked rows size = pre ++ c :: post)
    (hpre : ∀ d ∈ pre, store d = Except.ok ())
    (hfail : store c = Except.error e) :
    upsert_market_rows store rows size = (pre, some e) := by
  unfold upsert_market_rows
  rw [hsplit]
  clear hsplit
  induction pre with
  | nil => simp [upsertRun, hfail]
  | cons d rest ih =>
    have hd := hpre d (by simp)
    simp only [List.cons_append, upsertRun, hd, List.append_eq]
    rw [ih (fun x hx => hpre x (List.mem_cons_of_mem _ hx))]

/-- Witness for the amended C6: failure on the middle chunk leaves the
first chunk committed and surfaces the store's error. -/
theorem upsert_chunk_failure_witness :
    upsert_market_rows
      (fun c : List Nat => if c = [3, 4] then Except.error "APIError".data else Except.ok ())
      [1, 2, 3, 4, 5] 2 = ([[1, 2]], some "APIError".data) :=
  upsert_chunk_failure _ [1, 2, 3, 4, 5] 2 [[1, 2]] [3, 4] [[5]] "APIError".data rfl
    (by
      intro d hd
      rw [List.mem_singleton] at hd
      subst hd
      rfl)
    rfl

/-- Lines 81-85: `PrependStream` state: the unread remainder of the
sniffed-head BytesIO buffer and the unread remainder of the underlying
raw response body. -/
structure PrependStream where
  buf : List Nat
  base : List Nat
  deriving DecidableEq

/-- `io.BytesIO.read(n)`: a negative `n` reads everything. -/
def bioRead (buf : List Nat) (n : ℤ) : List Nat × List Nat :=
  if n < 0 then (buf, []) else (buf.take n.toNat, buf.drop n.toNat)

/-- Lines 86-91: `PrependStream.read(n)`: serve from the buffer; the base
stream is consulted for the remainder only when `n` is not `-1` and the
buffer came up short.  The raw body delivers `min(k, remaining)` bytes
per read (and everything for a negative request). -/
def psRead (s : PrependStream) (n : ℤ) : List Nat × PrependStream :=
  let br := bioRead s.buf n
  if n = -1 ∨ (br.1.length : ℤ) = n then (br.1, { buf := br.2, base := s.base })
  else
    let k := n - br.1.length
    if k < 0 then (br.1 ++ s.base, { buf := br.2, base := [] })
    else (br.1 ++ s.base.take k.toNat, { buf := br.2, base := s.base.drop k.toNat })

/-- Lines 94-106: `open_source_stream` reads the 4 sniff bytes off the
body and re-wraps them ahead of the rest.  When the head carries the
gzip magic the source wraps this same PrependStream in a GzipFile
(whose decompressor issues only non-negative chunked reads); the
prepending behaviour under test lives in PrependStream itself. -/
def open_source_stream (src : List Nat) : PrependStream :=
  { buf := src.take 4, base := src.drop 4 }

/-- The gzip magic test of line 104. -/
def isGzipMagic (head : List Nat) : Bool := decide ([0x1f, 0x8b] <+: head)

/-- C4: on the pass-through branch (no gzip magic), a single `read()`
with no length limit returns only the four re-prepended sniff bytes and
the following `read()` reports end of stream: `PrependStream.read(-1)`
returns early and never consults the base stream, so the read-all
consumer loses every byte after the head. -/
theorem prepend_read_all_truncates :
    isGzipMagic ((open_source_stream [1, 2, 3, 4, 5, 6]).buf) = false ∧
    (psRead (open_source_stream [1, 2, 3, 4, 5, 6]) (-1)).1 = [1, 2, 3, 4] ∧
    (psRead (psRead (open_source_stream [1, 2, 3, 4, 5, 6]) (-1)).2 (-1)).1 = [] ∧
    [1, 2, 3, 4] ≠ [1, 2, 3, 4, 5, 6] := ⟨rfl, rfl, rfl, by decide⟩

/-- The three candidate roots of lines 156-160, in scan order. -/
inductive Root where
  | item
  | productsItem
  | dataItem
  deriving DecidableEq

/-- `root_paths` of lines 156-160. -/
def rootPaths : List Root := [Root.item, Root.productsItem, Root.dataItem]

/-- The ijson path segments of each candidate root. -/
def rootSegs : Root → List (List Char)
  | .item => ["item".data]
  | .productsItem => ["products".data, "item".data]
  | .dataItem => ["data".data, "item".data]

/-- One ijson path segment: the named members of an object, or — for the
reserved segment name `item` — the elements of an array. -/
def segItems (key : List Char) : Json → List Json
  | .arr xs => if key = "item".data then xs else []
  | .obj kvs => kvs.filterMap (fun kv => if kv.1 = key then some kv.2 else none)
  | _ => []

/-- `ijson.items(stream, path)`: every value at exactly the given path. -/
def ijsonItems (d : Json) (r : Root) : List Json :=
  (rootSegs r).foldl (fun ds k => ds.flatMap (segItems k)) [d]

/-- The response body as the parser consumes it: the structured parse of
the document (`error` when ijson raises on a malformed body), and the
text lines the NDJSON fallback of lines 176-184 would iterate.  The
source reopens a fresh stream per attempt; the model hands every attempt
the same deterministic body. -/
structure SourceStream where
  doc : Except Unit Json
  lines : List (List Char)

/-- Line 180 calls `json.loads(line)`, but the module never imports
`json` (see lines 4-12): the lookup raises `NameError` on every line and
the bare `except` at line 183 swallows it, so every per-line parse
attempt fails. -/
def jsonLoads (_ : List Char) : Except Unit Json := Except.error ()

/-- `isinstance(obj, dict)`. -/
def isObjB : Json → Bool
  | .obj _ => true
  | _ => false

/-- What the NDJSON fallback of lines 176-184 yields. -/
def fallbackRecords (lines : List (List Char)) : List Json :=
  lines.filterMap (fun l =>
    match jsonLoads l with
    | .ok v => if isObjB v then some v else none
    | .error _ => none)

/-- Outcome of one run of the generator: the dict records it yielded,
the root location accepted (if any), and whether the NDJSON fallback was
entered. -/
structure FetchResult where
  records : List Json
  accepted : Option Root
  usedFallback : Bool

/-- Lines 162-184: try each root in order on a fresh stream; a root that
enumerates at least one value (or whose attempt raises) decides the run:
at least one value accepts the root and yields its dict values, an
exception or zero values moves to the next root, and when no root is
left the per-line fallback runs. -/
def fetchGo (st : SourceStream) : List Root → FetchResult
  | [] => { records := fallbackRecords st.lines, accepted := none, usedFallback := true }
  | r :: rs =>
    match st.doc with
    | .error _ => fetchGo st rs
    | .ok d =>
      let items := ijsonItems d r
      if items.isEmpty then fetchGo st rs
      else { records := items.filter isObjB, accepted := some r, usedFallback := false }

/-- Lines 154-184: `fetch_whitemarket`. -/
def fetch_whitemarket (st : SourceStream) : FetchResult := fetchGo st rootPaths

/-- The broken fallback yields no record whatever the lines are. -/
lemma fallbackRecords_nil : ∀ lines, fallbackRecords lines = [] := by
  intro lines
  induction lines with
  | nil => rfl
  | cons l rest ih => simp [fallbackRecords, List.filterMap_cons, jsonLoads, ih]

/-- C2 failing input: a root object with the unrecognized key `x`, whose
single body line is itself a valid JSON object. -/
def c2stream : SourceStream :=
  { doc := Except.ok (Json.obj [("x".data, Json.num 1)]),
    lines := ["\x7b\"x\": 1\x7d".data] }

/-- C2: with an unrecognized top-level key no candidate root matches and
the NDJSON fallback is reached, but it yields zero records even though
the body line is a valid JSON object — `json` is never imported, so each
`json.loads` raises `NameError`, silently swallowed per line.  The
claimed one-record-per-valid-line behaviour fails for every input. -/
theorem fallback_yields_nothing :
    (fetch_whitemarket c2stream).usedFallback = true ∧
    (fetch_whitemarket c2stream).records = [] ∧
    c2stream.lines ≠ [] ∧
    ∀ lines : List (List Char),
      (fetchGo { doc := c2stream.doc, lines := lines } []).records = [] := by
  refine ⟨rfl, rfl, by simp [c2stream], ?_⟩
  intro lines
  exact fallbackRecords_nil lines

/-- C10: the first candidate root whose attempt parses and enumerates at
least one value is accepted for the whole run even when none of its
values is a dict: the yield is the (possibly empty) dict filtering of
those values, the remaining candidates and the NDJSON fallback are
never tried, and earlier candidates were skipped exactly because they
enumerated zero values. -/
theorem root_accepted (st : SourceStream) (d : Json) (pre : List Root) (r : Root)
    (post : List Root) (hdoc : st.doc = Except.ok d)
    (hsplit : rootPaths = pre ++ r :: post)
    (hpre : ∀ q ∈ pre, ijsonItems d q = [])
    (hr : ijsonItems d r ≠ []) :
    fetch_whitemarket st =
      { records := (ijsonItems d r).filter isObjB, accepted := some r,
        usedFallback := false } := by
  have hie : (ijsonItems d r).isEmpty = false := by
    cases hh : ijsonItems d r with
    | nil => exact absurd hh hr
    | cons a t => rfl
  unfold fetch_whitemarket
  rw [hsplit]
  clear hsplit
  revert hpre
  induction pre with
  | nil =>
    intro _
    simp [fetchGo, hdoc, hie]
  | cons q rest ih =>
    intro hpre
    have hq := hpre q (by simp)
    simp only [List.cons_append, fetchGo, hdoc, hq]
    exact ih (fun x hx => hpre x (List.mem_cons_of_mem _ hx))

/-- Witness for C10: a root array enumerating one non-dict value is
accepted and yields zero records without reaching the fallback. -/
theorem root_accepted_witness :
    fetch_whitemarket
        { doc := Except.ok (Json.arr [Json.null]), lines := ["x".data] } =
      { records := [], accepted := some Root.item, usedFallback := false } := by
  have hr : ijsonItems (Json.arr [Json.null]) Root.item ≠ [] := by
    rw [show ijsonItems (Json.arr [Json.null]) Root.item = [Json.null] from rfl]
    exact List.cons_ne_nil _ _
  have h := root_accepted { doc := Except.ok (Json.arr [Json.null]), lines := ["x".data] }
    (Json.arr [Json.null]) [] Root.item [Root.productsItem, Root.dataItem] rfl rfl
    (fun q hq => absurd hq (List.not_mem_nil q)) hr
  rw [h]
  rfl

end Whitemarket
